import Mathlib

/-!
# Verification of the mcache Bloom filter engine

Shallow embedding of the Bloom filter core of the `mcache` repository:

* `bloom/bloom.go` — the membership engine: `location`, `EstimateParameters`,
  `BloomFilter` delegating to a `BitMap` backend;
* the in-process backend (`LocalBloom`, file `local_bitmap.go`) — a mutex-guarded
  bitset; the mutex serialises the operations, so each operation is modelled as a
  pure state transformer on the backend state;
* the go-redis remote backend (`bloom/goredis_bitmap.go`) — Lua scripts executed
  server-side; the client transport is modelled as an abstract reply function and
  the scripts' location arithmetic is embedded as exact arithmetic on naturals.
  Lua 5.1 numbers are IEEE doubles, whose arithmetic on integer operands is exact
  only while every intermediate stays within `2^53`; the theorems stated over the
  script model therefore carry hypotheses confining it to that exact regime.

Machine integers are modelled as `Nat` with explicit reduction `% 2 ^ 64`
(resp. `% 2 ^ 32` for the `uint32` conversions at the go-redis call sites)
wherever Go's fixed-width arithmetic can overflow.
-/

namespace MCache

/-- `2 ^ 64`, the modulus of Go's `uint64` arithmetic. -/
def U64 : Nat := 2 ^ 64

/-- `2 ^ 32`, the modulus of Go's `uint32` conversion. -/
def U32 : Nat := 2 ^ 32

/-- A `HashQuad`: the four base hash values (`[4]uint64` in Go).
Each component is meant to be `< 2 ^ 64`; theorems carry this bound
explicitly where it matters. -/
def HashQuad : Type := Fin 4 → Nat

/-- `location` from `bloom/bloom.go`:

    func location(h [4]uint64, i uint) uint64 {
        ii := uint64(i)
        return h[ii%2] + ii*h[2+(((ii+(ii%2))%4)/2)]
    }

The addition and multiplication are `uint64` operations, hence the final
`% 2 ^ 64`. -/
def location (h : HashQuad) (i : Nat) : Nat :=
  (h ⟨i % 2, by omega⟩ + i * h ⟨2 + ((i + i % 2) % 4) / 2, by omega⟩) % U64

/-- `max` from `bloom/bloom.go` (on `uint`). -/
def goMax (x y : Nat) : Nat := if x > y then x else y

/-- `EstimateParameters` from `bloom/bloom.go`:

    m = uint(math.Ceil(-1 * float64(n) * math.Log(p) / math.Pow(math.Log(2), 2)))
    k = uint(math.Ceil(math.Log(2) * float64(m) / float64(n)))

The `float64` arithmetic is modelled over `ℝ`; `uint(math.Ceil(x))` for the
nonnegative `x` arising on the claims' domain is modelled as `⌈x⌉.toNat`. -/
noncomputable def EstimateParameters (n : Nat) (p : ℝ) : Nat × Nat :=
  let m : Nat := ⌈-1 * (n : ℝ) * Real.log p / Real.log 2 ^ 2⌉.toNat
  let k : Nat := ⌈Real.log 2 * (m : ℝ) / (n : ℝ)⌉.toNat
  (m, k)

/-- Errors of the bloom package (`bloom/bloom.go`):
`ErrDataType` and `ErrNoRedis`, plus pass-through client errors
(`redis.Nil` and transport failures), which Go represents as further
`error` values. -/
inductive BloomErr where
  | errDataType
  | errNoRedis
  | redisNil
  | transportFailure (msg : String)
deriving DecidableEq, Repr

/-! ## In-process backend (`LocalBloom`)

The backing `bitset.BitSet` of length `m` is modelled as the `Finset Nat` of
set bit positions together with its length; `Set` is `insert`, `Test` is
membership, `ClearAll` is `∅`.  The mutex held for the duration of each k-bit
loop makes every operation atomic, so each is a pure function of the state. -/

/-- State of the in-process backend `LocalBloom`. -/
structure LocalBloom where
  k : Nat
  /-- `b.Len()` of the backing bitset. -/
  m : Nat
  /-- the positions whose bit is 1 in the backing bitset. -/
  bits : Finset Nat
deriving DecidableEq

/-- `NewLocal(m, k)`: floors both parameters to 1, fresh all-zero bitset. -/
def NewLocal (m k : Nat) : LocalBloom :=
  { k := goMax 1 k, m := goMax 1 m, bits := ∅ }

/-- Accessor `K()`. -/
def LocalBloom.K (l : LocalBloom) : Nat := l.k

/-- Accessor `M()` (`l.b.Len()`). -/
def LocalBloom.M (l : LocalBloom) : Nat := l.m

/-- `loc := uint(location(h, i) % uint64(l.b.Len()))`, the concrete bit index
computed in each loop iteration of `SetAll`/`TestAll`/`TestAddAll`. -/
def LocalBloom.loc (l : LocalBloom) (h : HashQuad) (i : Nat) : Nat :=
  location h i % l.m

/-- `LocalBloom.SetAll`: the k-iteration loop setting every `loc(h,i)`,
returning a nil error. -/
def LocalBloom.SetAll (l : LocalBloom) (h : HashQuad) : LocalBloom × Option BloomErr :=
  ({ l with bits := (List.range l.k).foldl (fun b i => insert (l.loc h i) b) l.bits }, none)

/-- `LocalBloom.TestAll`: returns false at the first unset bit, true if all
`k` bits are set; never mutates; nil error. -/
def LocalBloom.TestAll (l : LocalBloom) (h : HashQuad) : Bool × Option BloomErr :=
  ((List.range l.k).all (fun i => decide (l.loc h i ∈ l.bits)), none)

/-- `LocalBloom.TestAddAll`: single interleaved loop; `present` is cleared when
an unset bit is met, and every bit is set unconditionally. -/
def LocalBloom.TestAddAll (l : LocalBloom) (h : HashQuad) :
    (Bool × LocalBloom) × Option BloomErr :=
  let r := (List.range l.k).foldl
    (fun (p : Bool × Finset Nat) i =>
      let loc := l.loc h i
      ((if decide (loc ∈ p.2) then p.1 else false), insert loc p.2))
    (true, l.bits)
  ((r.1, { l with bits := r.2 }), none)

/-- `LocalBloom.ClearAll`: resets the bitset to all-zero; nil error. -/
def LocalBloom.ClearAll (l : LocalBloom) : LocalBloom × Option BloomErr :=
  ({ l with bits := ∅ }, none)

/-! ## Go-redis remote backend (`bloom/goredis_bitmap.go`) -/

/-- The three Lua scripts `setAllStr`, `testAllStr`, `setAddAllStr`. -/
inductive LuaScript where
  | setAll
  | testAll
  | setAddAll
deriving DecidableEq, Repr

/-- A reply from the redis scripting layer, as surfaced by go-redis as an
`interface{}` value: a 64-bit signed integer, a string, an array, or nil. -/
inductive RedisReply where
  | int (i : Int)
  | str (s : String)
  | arr (rs : List RedisReply)
  | nil

/-- Client-side errors: `redis.Nil` (empty reply) or a transport failure. -/
inductive RedisErr where
  | nilReply
  | transport (msg : String)
deriving DecidableEq, Repr

/-- How the bloom package surfaces a client error. -/
def RedisErr.toBloomErr : RedisErr → BloomErr
  | .nilReply => .redisNil
  | .transport msg => .transportFailure msg

/-- Abstract go-redis client: `Script.Run` (keys, args → reply) and `Del`.
The remote server's behaviour is folded into these functions. -/
structure RedisClient where
  run : LuaScript → List String → List Nat → Except RedisErr RedisReply
  del : String → Option RedisErr

/-- State of the go-redis backend `GoredisBloom`. -/
structure GoredisBloom where
  k : Nat
  m : Nat
  key : String
  client : Option RedisClient

/-- `NewGoredis(m, k, redisKey, client)`: floors `k` and `m` to 1; a nil
client is accepted. -/
def NewGoredis (m k : Nat) (redisKey : String) (client : Option RedisClient) :
    GoredisBloom :=
  { k := goMax 1 k, m := goMax 1 m, key := redisKey, client := client }

/-- Accessor `K()`. -/
def GoredisBloom.K (l : GoredisBloom) : Nat := l.k

/-- Accessor `M()`. -/
def GoredisBloom.M (l : GoredisBloom) : Nat := l.m

/-- The argument list of every script call:
`l.k, l.m, uint32(h[0]), uint32(h[1]), uint32(h[2]), uint32(h[3])` —
note the reduction of each 64-bit hash value to its low 32 bits. -/
def scriptArgs (l : GoredisBloom) (h : HashQuad) : List Nat :=
  [l.k, l.m, h 0 % U32, h 1 % U32, h 2 % U32, h 3 % U32]

/-- `GoredisBloom.SetAll`: nil client fails with `ErrNoRedis`; a `redis.Nil`
error from `Run` is ignored; other errors propagate. -/
def GoredisBloom.SetAll (l : GoredisBloom) (h : HashQuad) : Option BloomErr :=
  match l.client with
  | none => some .errNoRedis
  | some c =>
    match c.run .setAll [l.key] (scriptArgs l h) with
    | .error .nilReply => none
    | .error e => some e.toBloomErr
    | .ok _ => none

/-- `GoredisBloom.TestAll`: nil client fails with `ErrNoRedis`; a client error
propagates; a non-`int64` reply fails with `ErrDataType`; an integer reply is
true exactly when it equals 1. -/
def GoredisBloom.TestAll (l : GoredisBloom) (h : HashQuad) : Bool × Option BloomErr :=
  match l.client with
  | none => (false, some .errNoRedis)
  | some c =>
    match c.run .testAll [l.key] (scriptArgs l h) with
    | .error e => (false, some e.toBloomErr)
    | .ok (.int r) => (if r == 1 then true else false, none)
    | .ok _ => (false, some .errDataType)

/-- `GoredisBloom.TestAddAll`: same reply handling as `TestAll`, with the
`setAddAllStr` script. -/
def GoredisBloom.TestAddAll (l : GoredisBloom) (h : HashQuad) : Bool × Option BloomErr :=
  match l.client with
  | none => (false, some .errNoRedis)
  | some c =>
    match c.run .setAddAll [l.key] (scriptArgs l h) with
    | .error e => (false, some e.toBloomErr)
    | .ok (.int r) => (if r == 1 then true else false, none)
    | .ok _ => (false, some .errDataType)

/-- `GoredisBloom.ClearAll`: nil client fails with `ErrNoRedis`; otherwise
`client.Del(l.key).Err()`. -/
def GoredisBloom.ClearAll (l : GoredisBloom) : Option BloomErr :=
  match l.client with
  | none => some .errNoRedis
  | some c => (c.del l.key).map RedisErr.toBloomErr

/-! ## The Lua scripts' bit-position derivation

All three scripts compute, for `i = 1..k` with `ii = i-1`,

    local loc = (h[(ii%2)+1]+ii*h[3+(((ii+(ii%2))%4)/2)])%m

on the script arguments (Lua arrays are 1-based, so these are 0-based indices
`ii%2` and `2+(((ii+(ii%2))%4)/2)`).  Lua 5.1 numbers are IEEE doubles, and this
model treats the script's arithmetic as exact arithmetic on naturals.  For
integer operands double arithmetic — including Lua's `%`, defined as
`a - floor(a/b)*b` — is exact precisely while every intermediate value stays
within `2^53`; with the `uint32`-truncated hash arguments (`< 2^32`) this holds
whenever the loop counter stays below `2^21`, since then
`ii*h[j] ≤ (2^21-1)*(2^32-1) < 2^53` and likewise the sum.  Beyond that the
real scripts round (`ii*h[j]` above `2^53` is not representable), so every
theorem about this model restricts `k` to the exact regime `k ≤ 2^21`. -/

/-- The `loc` expression of the scripts, on argument values `a`. -/
def luaLocation (m : Nat) (a : Fin 4 → Nat) (ii : Nat) : Nat :=
  (a ⟨ii % 2, by omega⟩ + ii * a ⟨2 + ((ii + ii % 2) % 4) / 2, by omega⟩) % m

/-- The hash arguments as the scripts receive them: `uint32(h[j])` at every
go-redis call site. -/
def goredisArgs (h : HashQuad) : Fin 4 → Nat := fun j => h j % U32

/-- The set of bit positions a script's `k`-iteration loop touches (reads or
writes) for hash quad `h` against parameters `k`, `m`. -/
def luaTouched (k m : Nat) (h : HashQuad) : Finset Nat :=
  (Finset.range k).image (fun ii => luaLocation m (goredisArgs h) ii)

/-- The set of bit positions the in-process backend's `k`-iteration loop
touches for hash quad `h` against parameters `k`, `m`. -/
def localTouched (k m : Nat) (h : HashQuad) : Finset Nat :=
  (Finset.range k).image (fun i => location h i % m)

/-! ## Membership engine over the in-process backend

`BloomFilter.Add/Test/TestAndAdd/ClearAll` (`bloom/bloom.go`) hash the key
once with `baseHashes` and delegate to the backend.  `baseHashes` wraps
`digest128.sum256` (murmur), whose source is not part of this repository's
files; per the spec it is a deterministic pure function of the key bytes, so
it is kept abstract: every theorem quantifies over the hash derivation
`bh : List Nat → HashQuad`. -/

/-- One engine-level operation on an in-process-backed filter. -/
inductive LOp where
  | add (data : List Nat)
  | testAndAdd (data : List Nat)
  | test (data : List Nat)
  | clearAll
deriving DecidableEq, Repr

/-- Effect of one engine operation on the backend state: `Add` is
`SetAll ∘ baseHashes`, `TestAndAdd` is `TestAddAll ∘ baseHashes`, `Test`
never mutates, `ClearAll` clears. -/
def LocalBloom.step (bh : List Nat → HashQuad) (l : LocalBloom) : LOp → LocalBloom
  | .add d => (l.SetAll (bh d)).1
  | .testAndAdd d => (l.TestAddAll (bh d)).1.2
  | .test _ => l
  | .clearAll => l.ClearAll.1

/-- Run a sequence of engine operations (the mutex serialises them). -/
def LocalBloom.runOps (bh : List Nat → HashQuad) (l : LocalBloom) : List LOp → LocalBloom
  | [] => l
  | op :: ops => LocalBloom.runOps bh (l.step bh op) ops

/-- `binary.BigEndian.PutUint32` of a value into a fresh 4-byte slice, as used
by `EstimateFalsePositiveRate` to build synthetic keys. -/
def u32bytes (x : Nat) : List Nat :=
  let v := x % U32
  [v / 2 ^ 24 % 256, v / 2 ^ 16 % 256, v / 2 ^ 8 % 256, v % 256]

/-- `BloomFilter.EstimateFalsePositiveRate` (`bloom/bloom.go`), for a
go-redis-backed filter.  The source bounds the Add and Test phases by a
semaphore channel and joins all goroutines (`wg.Wait()`) before the counter
is read; with the abstract stateless client the calls are independent, so the
phases are modelled sequentially.  `f.ClearAll()` and `f.Add(n1)` discard
their error results, `r, _ := f.Test(n1)` discards the Test error, and the
function returns only `float64(fp) / float64(rounds)` (an exact rational
here). -/
def goredisEstimateFalsePositiveRate (bh : List Nat → HashQuad)
    (l : GoredisBloom) (n : Nat) : ℚ :=
  let rounds : Nat := 100000
  let _ := l.ClearAll
  let _ := (List.range n).map (fun i => l.SetAll (bh (u32bytes i)))
  let fp : Nat := ((List.range rounds).filter
    (fun i => (l.TestAll (bh (u32bytes (i + n + 1)))).1)).length
  let _ := l.ClearAll
  (fp : ℚ) / (rounds : ℚ)

/-! ## Lemmas on the in-process operations -/

lemma mem_foldl_insert (f : Nat → Nat) (L : List Nat) (s : Finset Nat) (x : Nat) :
    x ∈ L.foldl (fun b i => insert (f i) b) s ↔ x ∈ s ∨ ∃ i ∈ L, f i = x := by
  induction L generalizing s with
  | nil => simp
  | cons a L ih =>
    rw [List.foldl_cons, ih]
    simp [Finset.mem_insert]
    tauto

lemma setAll_bits_mem (l : LocalBloom) (h : HashQuad) (x : Nat) :
    x ∈ (l.SetAll h).1.bits ↔ x ∈ l.bits ∨ ∃ i < l.k, l.loc h i = x := by
  simp [LocalBloom.SetAll, mem_foldl_insert, List.mem_range]

lemma setAll_k (l : LocalBloom) (h : HashQuad) : (l.SetAll h).1.k = l.k := rfl

lemma setAll_m (l : LocalBloom) (h : HashQuad) : (l.SetAll h).1.m = l.m := rfl

lemma testAll_fst (l : LocalBloom) (h : HashQuad) :
    (l.TestAll h).1 = true ↔ ∀ i < l.k, l.loc h i ∈ l.bits := by
  simp [LocalBloom.TestAll, List.all_eq_true, List.mem_range]

lemma taFold_snd (f : Nat → Nat) (L : List Nat) (p : Bool × Finset Nat) :
    (L.foldl (fun q i => ((if decide (f i ∈ q.2) then q.1 else false), insert (f i) q.2)) p).2
      = L.foldl (fun b i => insert (f i) b) p.2 := by
  induction L generalizing p with
  | nil => rfl
  | cons a L ih => rw [List.foldl_cons, List.foldl_cons, ih]

lemma taFold_fst (f : Nat → Nat) (L : List Nat) (p : Bool × Finset Nat) :
    (L.foldl (fun q i => ((if decide (f i ∈ q.2) then q.1 else false), insert (f i) q.2)) p).1
      = (p.1 && L.all (fun i => decide (f i ∈ p.2))) := by
  induction L generalizing p with
  | nil => simp
  | cons a L ih =>
    rw [List.foldl_cons, List.all_cons, ih]
    by_cases hx : f a ∈ p.2
    · rw [Finset.insert_eq_self.mpr hx]
      simp [hx, Bool.and_assoc]
    · simp [hx]

lemma testAddAll_eq (l : LocalBloom) (h : HashQuad) :
    l.TestAddAll h = (((l.TestAll h).1, (l.SetAll h).1), none) := by
  unfold LocalBloom.TestAddAll
  rw [Prod.ext_iff, Prod.ext_iff]
  refine ⟨⟨?_, ?_⟩, rfl⟩
  · rw [taFold_fst]
    simp [LocalBloom.TestAll]
  · show ({ l with bits := _ } : LocalBloom) = (l.SetAll h).1
    rw [taFold_snd]
    rfl

lemma step_k (bh : List Nat → HashQuad) (l : LocalBloom) (op : LOp) :
    (l.step bh op).k = l.k := by
  cases op <;> simp [LocalBloom.step, testAddAll_eq, LocalBloom.ClearAll, setAll_k]

lemma step_m (bh : List Nat → HashQuad) (l : LocalBloom) (op : LOp) :
    (l.step bh op).m = l.m := by
  cases op <;> simp [LocalBloom.step, testAddAll_eq, LocalBloom.ClearAll, setAll_m]

lemma runOps_k (bh : List Nat → HashQuad) (l : LocalBloom) (ops : List LOp) :
    (LocalBloom.runOps bh l ops).k = l.k := by
  induction ops generalizing l with
  | nil => rfl
  | cons op ops ih => rw [LocalBloom.runOps, ih, step_k]

lemma runOps_m (bh : List Nat → HashQuad) (l : LocalBloom) (ops : List LOp) :
    (LocalBloom.runOps bh l ops).m = l.m := by
  induction ops generalizing l with
  | nil => rfl
  | cons op ops ih => rw [LocalBloom.runOps, ih, step_m]

lemma step_bits_mono (bh : List Nat → HashQuad) (l : LocalBloom) (op : LOp)
    (hop : op ≠ LOp.clearAll) : l.bits ⊆ (l.step bh op).bits := by
  cases op with
  | add d =>
    intro x hx
    exact (setAll_bits_mem l (bh d) x).mpr (Or.inl hx)
  | testAndAdd d =>
    intro x hx
    show x ∈ (l.TestAddAll (bh d)).1.2.bits
    rw [testAddAll_eq]
    exact (setAll_bits_mem l (bh d) x).mpr (Or.inl hx)
  | test d => exact subset_rfl
  | clearAll => exact absurd rfl hop

lemma runOps_bits_mono (bh : List Nat → HashQuad) (l : LocalBloom) (ops : List LOp)
    (hnc : LOp.clearAll ∉ ops) : l.bits ⊆ (LocalBloom.runOps bh l ops).bits := by
  induction ops generalizing l with
  | nil => exact subset_rfl
  | cons op ops ih =>
    rw [List.mem_cons, not_or] at hnc
    exact (step_bits_mono bh l op (fun he => hnc.1 he.symm)).trans (ih _ hnc.2)

/-! ## Claim theorems: in-process backend -/

/-- C2: the in-process `location` function returns the 64-bit value
`h[i mod 2] + i * h[2 + ((i + (i mod 2)) mod 4) / 2]` (0-based indices,
`uint64` arithmetic, i.e. mod `2^64`), and the concrete bit index used against
the `m`-sized array — by `SetAll` in particular — is this value mod `m`. -/
theorem location_enhanced_double_hashing (h : HashQuad) (i : Nat) (l : LocalBloom) (x : Nat) :
    location h i
      = (h ⟨i % 2, by omega⟩ + i * h ⟨2 + ((i + i % 2) % 4) / 2, by omega⟩) % 2 ^ 64
    ∧ l.loc h i = location h i % l.m
    ∧ (x ∈ (l.SetAll h).1.bits ↔ x ∈ l.bits ∨ ∃ j < l.k, location h j % l.m = x) := by
  refine ⟨rfl, rfl, ?_⟩
  simpa [LocalBloom.loc] using setAll_bits_mem l h x

/-- C5: on the in-process backend, `TestAddAll h` returns exactly what
`TestAll h` would return on the starting state, leaves the bit array exactly
as `SetAll h` would, and reports a nil error — the single interleaved
test-and-set loop is `TestAll` followed by `SetAll`. -/
theorem local_testAddAll_is_testAll_then_setAll (l : LocalBloom) (h : HashQuad) :
    l.TestAddAll h = (((l.TestAll h).1, (l.SetAll h).1), none) :=
  testAddAll_eq l h

/-- C4: no false negatives on the in-process backend — after an `Add` (or a
`TestAndAdd`) of a key, any sequence of further engine operations not
containing `ClearAll` leaves every one of the key's bit positions set, so a
subsequent `Test` of the same key returns `true` with a nil error. -/
theorem local_no_false_negatives (bh : List Nat → HashQuad) (l : LocalBloom)
    (d : List Nat) (op : LOp) (post : List LOp)
    (hop : op = LOp.add d ∨ op = LOp.testAndAdd d)
    (hnc : LOp.clearAll ∉ post) :
    (LocalBloom.runOps bh (l.step bh op) post).TestAll (bh d) = (true, none) := by
  have hbits : ∀ i, i < l.k → l.loc (bh d) i ∈ (l.step bh op).bits := by
    intro i hi
    rcases hop with rfl | rfl
    · exact (setAll_bits_mem l (bh d) _).mpr (Or.inr ⟨i, hi, rfl⟩)
    · show l.loc (bh d) i ∈ (l.TestAddAll (bh d)).1.2.bits
      rw [testAddAll_eq]
      exact (setAll_bits_mem l (bh d) _).mpr (Or.inr ⟨i, hi, rfl⟩)
  have hsub := runOps_bits_mono bh (l.step bh op) post hnc
  have hk : (LocalBloom.runOps bh (l.step bh op) post).k = l.k := by
    rw [runOps_k, step_k]
  have hm : (LocalBloom.runOps bh (l.step bh op) post).m = l.m := by
    rw [runOps_m, step_m]
  rw [Prod.ext_iff]
  refine ⟨?_, rfl⟩
  rw [testAll_fst]
  intro i hi
  rw [hk] at hi
  have hloc : (LocalBloom.runOps bh (l.step bh op) post).loc (bh d) i = l.loc (bh d) i := by
    simp [LocalBloom.loc, hm]
  rw [hloc]
  exact hsub (hbits i hi)

/-- Witness for C4 at a concrete filter, key, hash derivation and trace. -/
theorem local_no_false_negatives_witness :
    ((LOp.add [1] = LOp.add [1] ∨ LOp.add [1] = LOp.testAndAdd [1])
      ∧ LOp.clearAll ∉ ([LOp.test [2]] : List LOp))
    ∧ (LocalBloom.runOps (fun _ _ => 0)
        ((NewLocal 8 2).step (fun _ _ => 0) (LOp.add [1]))
        [LOp.test [2]]).TestAll ((fun _ _ => 0 : List Nat → HashQuad) [1])
        = (true, none) :=
  ⟨⟨Or.inl rfl, by decide⟩,
    local_no_false_negatives (fun _ _ => 0) (NewLocal 8 2) [1] (LOp.add [1])
      [LOp.test [2]] (Or.inl rfl) (by decide)⟩

/-- C9: `ClearAll` resets membership — on the in-process backend any state is
reset to the all-zero array, so a `Test` of any key afterwards returns `false`
(the filter's `k ≥ 1` bit positions are all unset). -/
theorem local_clear_resets_membership (l : LocalBloom) (h : HashQuad)
    (hk : 1 ≤ l.k) :
    l.ClearAll.1.TestAll h = (false, none) := by
  rw [Prod.ext_iff]
  refine ⟨?_, rfl⟩
  simp only [LocalBloom.TestAll, LocalBloom.ClearAll, Finset.not_mem_empty,
    decide_False, List.all_eq_false, List.mem_range]
  exact ⟨0, by omega, by simp⟩

/-- Witness for C9 at a concrete filter and hash quad. -/
theorem local_clear_resets_membership_witness :
    1 ≤ (NewLocal 3 2).k
    ∧ (NewLocal 3 2).ClearAll.1.TestAll (fun _ => 5) = (false, none) :=
  ⟨by decide, local_clear_resets_membership (NewLocal 3 2) (fun _ => 5) (by decide)⟩

/-- C6: degenerate sizing — `NewLocal(0,0)` (and `NewGoredis(0,0,·,·)`) floors
both parameters, so the `K()` and `M()` accessors (behind the engine's `K()`
and `Cap()`) return 1, while `EstimateParameters` applies no floor: at the
pathological target `p = 1` it returns `m = 0` and `k = 0`. -/
theorem degenerate_sizing_floors :
    (NewLocal 0 0).K = 1 ∧ (NewLocal 0 0).M = 1
    ∧ (NewGoredis 0 0 "" none).K = 1 ∧ (NewGoredis 0 0 "" none).M = 1
    ∧ EstimateParameters 1 1 = (0, 0) := by
  refine ⟨rfl, rfl, rfl, rfl, ?_⟩
  simp [EstimateParameters, Real.log_one]

/-! ## Claim theorems: remote (go-redis) backend vs in-process positions -/

/-- A hash quad whose first component does not fit in 32 bits. -/
def quadBig : HashQuad := fun j => if j = 0 then 2 ^ 32 else 0

/-- C1 counterexample: with `k = 1`, `m = 3` and first hash value `2^32`, the
go-redis scripts (which receive `uint32`-truncated hash values) touch bit 0
while the in-process backend touches bit 1 — the two backends do not agree
bit-for-bit on the touched positions.  (With `k = 1` every script value here
is at most `2^32`, well inside the doubles' exact regime, so the exact-natural
script model is faithful on this input.) -/
theorem goredis_positions_counterexample :
    luaTouched 1 3 quadBig ≠ localTouched 1 3 quadBig
    ∧ luaTouched 1 3 quadBig = {0} ∧ localTouched 1 3 quadBig = {1} := by
  decide

lemma location_sum_lt_u64 (h : HashQuad) (i : Nat)
    (hh : ∀ j, h j < U32) (hi : i < U32) :
    h ⟨i % 2, by omega⟩ + i * h ⟨2 + ((i + i % 2) % 4) / 2, by omega⟩ < U64 := by
  have e1 := hh ⟨i % 2, by omega⟩
  have e2 := hh ⟨2 + ((i + i % 2) % 4) / 2, by omega⟩
  simp only [U32, U64] at *
  have hcb : i * h ⟨2 + ((i + i % 2) % 4) / 2, by omega⟩ ≤ (2 ^ 32 - 1) * (2 ^ 32 - 1) :=
    Nat.mul_le_mul (by omega) (by omega)
  have hN : (2 ^ 32 - 1) * (2 ^ 32 - 1) = 2 ^ 64 - 2 ^ 33 + 1 := by norm_num
  omega

/-- C1 amended: the two backends derive identical position sets whenever every
hash value fits in 32 bits (so the `uint32` truncation at the go-redis call
sites is the identity) and `k ≤ 2^21` — the regime in which the scripts'
IEEE-double arithmetic is exact, so that the exact-natural script model is
faithful (`ii*h[j] ≤ (2^21-1)*(2^32-1) < 2^53`).  In general the scripts apply
the location formula to the low 32 bits of each hash value, and the sets
differ. -/
theorem goredis_positions_agree_on_32bit_hashes (h : HashQuad) (k m : Nat)
    (hh : ∀ j, h j < U32) (hk : k ≤ 2 ^ 21) :
    luaTouched k m h = localTouched k m h := by
  unfold luaTouched localTouched
  apply Finset.image_congr
  intro i hi
  rw [Finset.mem_coe, Finset.mem_range] at hi
  have hi32 : i < U32 :=
    lt_of_lt_of_le (lt_of_lt_of_le hi hk) (by norm_num [U32])
  unfold luaLocation location goredisArgs
  dsimp only
  rw [Nat.mod_eq_of_lt (hh _), Nat.mod_eq_of_lt (hh _),
    Nat.mod_eq_of_lt (location_sum_lt_u64 h i hh hi32)]

/-- A small hash quad, all of whose components fit in 32 bits. -/
def quadSmall : HashQuad := fun j => j.val + 1

/-- Witness for the amended C1 at a concrete quad and parameters. -/
theorem goredis_positions_agree_witness :
    (∀ j, quadSmall j < U32) ∧ 2 ≤ 2 ^ 21
    ∧ luaTouched 2 5 quadSmall = localTouched 2 5 quadSmall :=
  ⟨by decide, by decide,
    goredis_positions_agree_on_32bit_hashes quadSmall 2 5 (by decide) (by decide)⟩

/-! ## Claim theorems: go-redis error handling -/

/-- C7: with a nil client, construction succeeds (yielding a filter with the
floored parameters and no client), and every `SetAll`/`TestAll`/`TestAddAll`/
`ClearAll` call fails with `ErrNoRedis` (the test operations additionally
returning `false`). -/
theorem goredis_nil_client_fails (l : GoredisBloom) (hc : l.client = none)
    (h : HashQuad) (m k : Nat) (key : String) :
    l.SetAll h = some BloomErr.errNoRedis
    ∧ l.TestAll h = (false, some BloomErr.errNoRedis)
    ∧ l.TestAddAll h = (false, some BloomErr.errNoRedis)
    ∧ l.ClearAll = some BloomErr.errNoRedis
    ∧ (NewGoredis m k key none).client = none
    ∧ (NewGoredis m k key none).K = goMax 1 k
    ∧ (NewGoredis m k key none).M = goMax 1 m := by
  refine ⟨?_, ?_, ?_, ?_, rfl, rfl, rfl⟩ <;>
    simp [GoredisBloom.SetAll, GoredisBloom.TestAll, GoredisBloom.TestAddAll,
      GoredisBloom.ClearAll, hc]

/-- Witness for C7 at a concrete nil-client filter. -/
theorem goredis_nil_client_fails_witness :
    (NewGoredis 1 1 "bloom" none).client = none
    ∧ ((NewGoredis 1 1 "bloom" none).SetAll (fun _ => 0) = some BloomErr.errNoRedis
      ∧ (NewGoredis 1 1 "bloom" none).TestAll (fun _ => 0)
          = (false, some BloomErr.errNoRedis)
      ∧ (NewGoredis 1 1 "bloom" none).TestAddAll (fun _ => 0)
          = (false, some BloomErr.errNoRedis)
      ∧ (NewGoredis 1 1 "bloom" none).ClearAll = some BloomErr.errNoRedis
      ∧ (NewGoredis 1 1 "bloom" none).client = none
      ∧ (NewGoredis 1 1 "bloom" none).K = goMax 1 1
      ∧ (NewGoredis 1 1 "bloom" none).M = goMax 1 1) :=
  ⟨rfl, goredis_nil_client_fails (NewGoredis 1 1 "bloom" none) rfl (fun _ => 0) 1 1 "bloom"⟩

/-- C8: go-redis reply coercion — when the script call in `TestAll` or
`TestAddAll` completes without client error, a reply that is not a 64-bit
signed integer yields `(false, ErrDataType)`, and an integer reply `r` yields
`true` exactly when `r = 1`, with a nil error. -/
theorem goredis_reply_coercion (l : GoredisBloom) (c : RedisClient)
    (hc : l.client = some c) (h : HashQuad) :
    (∀ r : Int, c.run .testAll [l.key] (scriptArgs l h) = .ok (.int r) →
        l.TestAll h = ((if r == 1 then true else false), none))
    ∧ (∀ rep : RedisReply, c.run .testAll [l.key] (scriptArgs l h) = .ok rep →
        (∀ r : Int, rep ≠ .int r) →
        l.TestAll h = (false, some BloomErr.errDataType))
    ∧ (∀ r : Int, c.run .setAddAll [l.key] (scriptArgs l h) = .ok (.int r) →
        l.TestAddAll h = ((if r == 1 then true else false), none))
    ∧ (∀ rep : RedisReply, c.run .setAddAll [l.key] (scriptArgs l h) = .ok rep →
        (∀ r : Int, rep ≠ .int r) →
        l.TestAddAll h = (false, some BloomErr.errDataType)) := by
  refine ⟨?_, ?_, ?_, ?_⟩
  · intro r hr
    simp [GoredisBloom.TestAll, hc, hr]
  · intro rep hr hne
    cases rep with
    | int r => exact absurd rfl (hne r)
    | str s => simp [GoredisBloom.TestAll, hc, hr]
    | arr rs => simp [GoredisBloom.TestAll, hc, hr]
    | nil => simp [GoredisBloom.TestAll, hc, hr]
  · intro r hr
    simp [GoredisBloom.TestAddAll, hc, hr]
  · intro rep hr hne
    cases rep with
    | int r => exact absurd rfl (hne r)
    | str s => simp [GoredisBloom.TestAddAll, hc, hr]
    | arr rs => simp [GoredisBloom.TestAddAll, hc, hr]
    | nil => simp [GoredisBloom.TestAddAll, hc, hr]

/-- A client whose every script run replies with the integer 1. -/
def clientIntOne : RedisClient :=
  { run := fun _ _ _ => .ok (.int 1), del := fun _ => none }

/-- Witness for C8 at a concrete client replying `int 1`. -/
theorem goredis_reply_coercion_witness :
    (NewGoredis 1 1 "bloom" (some clientIntOne)).client = some clientIntOne
    ∧ clientIntOne.run .testAll ["bloom"]
        (scriptArgs (NewGoredis 1 1 "bloom" (some clientIntOne)) (fun _ => 0))
        = .ok (.int 1)
    ∧ (NewGoredis 1 1 "bloom" (some clientIntOne)).TestAll (fun _ => 0)
        = ((if (1 : Int) == 1 then true else false), none) :=
  ⟨rfl, rfl,
    (goredis_reply_coercion (NewGoredis 1 1 "bloom" (some clientIntOne)) clientIntOne
      rfl (fun _ => 0)).1 1 rfl⟩

/-- C10: `EstimateFalsePositiveRate` silently discards every backend error —
on a go-redis-backed filter with a nil client every `Add` and `Test` call
fails, yet the procedure completes and returns the numeric rate 0 with no
error indication. -/
theorem estimateFPR_discards_errors (bh : List Nat → HashQuad)
    (l : GoredisBloom) (n : Nat) (hc : l.client = none) :
    goredisEstimateFalsePositiveRate bh l n = 0 := by
  unfold goredisEstimateFalsePositiveRate
  have htest : ∀ h, (l.TestAll h).1 = false := by
    intro h
    simp [GoredisBloom.TestAll, hc]
  simp [htest]

/-- Witness for C10 at a concrete nil-client filter. -/
theorem estimateFPR_discards_errors_witness :
    (NewGoredis 4 2 "bloom" none).client = none
    ∧ goredisEstimateFalsePositiveRate (fun _ _ => 0) (NewGoredis 4 2 "bloom" none) 3 = 0 :=
  ⟨rfl, estimateFPR_discards_errors (fun _ _ => 0) (NewGoredis 4 2 "bloom" none) 3 rfl⟩

/-! ## Claim theorems: parameter estimator

Numeric evaluation of `EstimateParameters 1000 (1/100)`.  The bounds on
`log (5/4)` come from the Taylor remainder estimate
`Real.abs_log_sub_add_sum_range_le`, those on `log 2` from Mathlib;
`log 100 = 6 log 2 + 2 log (5/4)` since `100 = 2^6 · (5/4)^2`. -/

lemma log_five_fourths_bounds :
    (0.2231435:ℝ) < Real.log (5/4) ∧ Real.log (5/4) < 0.2231436 := by
  have habs : |(1/5 : ℝ)| < 1 := by rw [abs_of_pos] <;> norm_num
  have z := Real.abs_log_sub_add_sum_range_le habs 12
  rw [abs_of_pos (show (0:ℝ) < 1/5 by norm_num)] at z
  simp only [Finset.sum_range_succ, Finset.sum_range_zero] at z
  norm_num at z
  rw [show ((4:ℝ)/5) = ((5:ℝ)/4)⁻¹ by norm_num, Real.log_inv] at z
  have z' := abs_le.mp z
  exact ⟨by linarith [z'.2], by linarith [z'.1]⟩

lemma log_hundred_bounds :
    (4.605170:ℝ) < Real.log 100 ∧ Real.log 100 < 4.605171 := by
  have h2a := Real.log_two_gt_d9
  have h2b := Real.log_two_lt_d9
  have h54 := log_five_fourths_bounds
  have he : Real.log (100:ℝ) = 6 * Real.log 2 + 2 * Real.log (5/4) := by
    rw [show (100:ℝ) = 2 ^ 6 * (5/4) ^ 2 by norm_num,
      Real.log_mul (by norm_num) (by norm_num), Real.log_pow, Real.log_pow]
    push_cast
    ring
  rw [he]
  exact ⟨by nlinarith [h2a, h54.1], by nlinarith [h2b, h54.2]⟩

lemma estimate_m_1000 :
    ⌈(-1 : ℝ) * ((1000:ℕ):ℝ) * Real.log (1/100) / Real.log 2 ^ 2⌉.toNat = 9586 := by
  have hlog : Real.log ((1:ℝ)/100) = -Real.log 100 := by
    rw [one_div, Real.log_inv]
  have hq1 := Real.log_two_gt_d9
  have hq2 := Real.log_two_lt_d9
  have hqpos : (0:ℝ) < Real.log 2 := by linarith
  have hq2pos : (0:ℝ) < Real.log 2 ^ 2 := by positivity
  have hL := log_hundred_bounds
  have hx : (-1 : ℝ) * ((1000:ℕ):ℝ) * Real.log (1/100) / Real.log 2 ^ 2
      = 1000 * Real.log 100 / Real.log 2 ^ 2 := by
    rw [hlog]; push_cast; ring
  rw [hx]
  have hceil : ⌈(1000:ℝ) * Real.log 100 / Real.log 2 ^ 2⌉ = 9586 := by
    rw [Int.ceil_eq_iff]
    push_cast
    constructor
    · rw [lt_div_iff₀ hq2pos]
      have hq2' : Real.log 2 ^ 2 < 0.4804530143 := by nlinarith
      nlinarith [hL.1]
    · rw [div_le_iff₀ hq2pos]
      have hq1' : (0.4804530131:ℝ) < Real.log 2 ^ 2 := by nlinarith
      nlinarith [hL.2]
  rw [hceil]
  rfl

lemma estimate_k_1000 :
    ⌈Real.log 2 * ((9586:ℕ):ℝ) / ((1000:ℕ):ℝ)⌉.toNat = 7 := by
  have hq1 := Real.log_two_gt_d9
  have hq2 := Real.log_two_lt_d9
  have hceil : ⌈Real.log 2 * ((9586:ℕ):ℝ) / ((1000:ℕ):ℝ)⌉ = 7 := by
    rw [Int.ceil_eq_iff]
    push_cast
    constructor
    · rw [lt_div_iff₀ (by norm_num : (0:ℝ) < 1000)]
      nlinarith
    · rw [div_le_iff₀ (by norm_num : (0:ℝ) < 1000)]
      nlinarith
  rw [hceil]
  rfl

lemma estimate_1000_value : EstimateParameters 1000 (1/100) = (9586, 7) := by
  rw [Prod.ext_iff]
  refine ⟨estimate_m_1000, ?_⟩
  show ⌈Real.log 2
      * ((⌈(-1 : ℝ) * ((1000:ℕ):ℝ) * Real.log (1/100) / Real.log 2 ^ 2⌉.toNat : ℕ) : ℝ)
      / ((1000:ℕ):ℝ)⌉.toNat = 7
  rw [estimate_m_1000]
  exact estimate_k_1000

/-- C3 counterexample: at n = 1000, p = 0.01 the estimator's formulas give
m = 9586 and k = 7, refuting the claimed m ≈ 6235 and k ≈ 5 (even allowing
ceiling rounding). -/
theorem estimateParameters_1000_counterexample :
    EstimateParameters 1000 (1/100) = (9586, 7)
    ∧ 6236 < (EstimateParameters 1000 (1/100)).1
    ∧ 6 < (EstimateParameters 1000 (1/100)).2 := by
  refine ⟨estimate_1000_value, ?_, ?_⟩ <;> rw [estimate_1000_value] <;> norm_num

/-- C3 (amended): `EstimateParameters(n, p)` returns
`m = ceil(-n·ln p / (ln 2)²)` and `k = ceil(ln 2 · m / n)`; at
`(1000, 0.01)` these formulas yield `m = 9586` and `k = 7`. -/
theorem estimateParameters_formula (n : Nat) (p : ℝ) :
    (EstimateParameters n p).1 = ⌈-1 * (n : ℝ) * Real.log p / Real.log 2 ^ 2⌉₊
    ∧ (EstimateParameters n p).2
        = ⌈Real.log 2 * (((EstimateParameters n p).1 : ℕ) : ℝ) / (n : ℝ)⌉₊
    ∧ EstimateParameters 1000 (1/100) = (9586, 7) := by
  refine ⟨?_, ?_, estimate_1000_value⟩
  · show ⌈-1 * (n : ℝ) * Real.log p / Real.log 2 ^ 2⌉.toNat = _
    rw [Int.ceil_toNat]
  · show ⌈Real.log 2 * (((EstimateParameters n p).1 : ℕ) : ℝ) / (n : ℝ)⌉.toNat = _
    rw [Int.ceil_toNat]

end MCache
